import Mathlib

/-!
Verification of the TableText math-aware rendering pipeline
(`src/tags/object/RichText/table.js` of Khan/label-studio-frontend).

The development shallowly embeds the four components of the pipeline:

* the conversation parser (`renderTableValue`, which decodes the raw value
  with the host language's JSON parser and maps each tuple to a row),
* the math tokenizer (`parseConvoWithMath`, a split on the combined
  delimiter pattern recognizing backslash-paren and backslash-bracket
  delimiter pairs with one capturing group),
* the render node builder (`renderAllMathJax` and the per-field branches),
* the typeset scheduler (`triggerMathJaxTypeset` with its module-scoped
  `typesetPromise` handle), modelled as a step function over explicit
  scheduler states driven by trigger / timer / promise-settlement events.

JavaScript runtime behaviour that the source relies on is embedded
explicitly: `JSON.parse` as an executable recursive-descent parser over the
JSON grammar, `String.split` with a capturing group as a scanner producing
the alternating piece list, property access on non-objects (`undefined`
indexing, `null` indexing faults, `.split` on non-strings faulting), and
JavaScript string truthiness.  Faults that would propagate out of the
rendering function are represented with `Except.error`.
-/

namespace TableJS

/-! ### JSON values

The result of `JSON.parse`.  Numbers keep their source lexeme: no claim
depends on numeric value semantics, only on a number not being a string. -/

inductive Json where
  | null
  | bool (b : Bool)
  | num (lexeme : String)
  | str (s : String)
  | arr (elems : List Json)
  | obj (fields : List (String × Json))

/-! ### The JSON parser (model of the JavaScript builtin `JSON.parse`)

An executable recursive-descent parser for the JSON grammar, structurally
recursive on a fuel counter so that concrete runs reduce definitionally.
Lone UTF-16 surrogates from `\uXXXX` escapes are outside the `Char` scalar
range and fall back through `Char.ofNat`; no claim touches them. -/

def jsonWs (c : Char) : Bool := c == ' ' || c == '\t' || c == '\n' || c == '\r'

def skipWs : List Char → List Char
  | [] => []
  | c :: rest => if jsonWs c then skipWs rest else c :: rest

def hexVal (c : Char) : Option Nat :=
  if '0' ≤ c ∧ c ≤ '9' then some (c.toNat - '0'.toNat)
  else if 'a' ≤ c ∧ c ≤ 'f' then some (c.toNat - 'a'.toNat + 10)
  else if 'A' ≤ c ∧ c ≤ 'F' then some (c.toNat - 'A'.toNat + 10)
  else none

def escSimple (c : Char) : Option Char :=
  if c = '"' then some '"'
  else if c = '\\' then some '\\'
  else if c = '/' then some '/'
  else if c = 'b' then some (Char.ofNat 8)
  else if c = 'f' then some (Char.ofNat 12)
  else if c = 'n' then some '\n'
  else if c = 'r' then some '\r'
  else if c = 't' then some '\t'
  else none

/-- Body of a JSON string literal, after the opening quote: the decoded
characters and the remaining input after the closing quote. -/
def parseStringBody : List Char → Option (List Char × List Char)
  | [] => none
  | '"' :: rest => some ([], rest)
  | '\\' :: 'u' :: h1 :: h2 :: h3 :: h4 :: rest =>
    match hexVal h1, hexVal h2, hexVal h3, hexVal h4 with
    | some a, some b, some c, some d =>
      match parseStringBody rest with
      | some (cs, r) => some (Char.ofNat (((a * 16 + b) * 16 + c) * 16 + d) :: cs, r)
      | none => none
    | _, _, _, _ => none
  | '\\' :: c :: rest =>
    match escSimple c with
    | some d =>
      match parseStringBody rest with
      | some (cs, r) => some (d :: cs, r)
      | none => none
    | none => none
  | c :: rest =>
    if c.toNat < 32 then none
    else
      match parseStringBody rest with
      | some (cs, r) => some (c :: cs, r)
      | none => none

def takeDigits : List Char → List Char × List Char
  | [] => ([], [])
  | c :: rest =>
    if c.isDigit then
      let (ds, r) := takeDigits rest
      (c :: ds, r)
    else ([], c :: rest)

def parseIntPart : List Char → Option (List Char × List Char)
  | [] => none
  | c :: r =>
    if c = '0' then some (['0'], r)
    else if c.isDigit then
      let (ds, r2) := takeDigits r
      some (c :: ds, r2)
    else none

def parseFracPart : List Char → Option (List Char × List Char)
  | '.' :: r =>
    let (ds, r2) := takeDigits r
    if ds.isEmpty then none else some ('.' :: ds, r2)
  | l => some ([], l)

def parseExpPart : List Char → Option (List Char × List Char)
  | [] => some ([], [])
  | c :: r =>
    if c = 'e' ∨ c = 'E' then
      let (sgn, r1) :=
        match r with
        | s :: r2 => if s = '+' ∨ s = '-' then ([s], r2) else (([] : List Char), r)
        | [] => (([] : List Char), r)
      let (ds, r2) := takeDigits r1
      if ds.isEmpty then none else some (c :: (sgn ++ ds), r2)
    else some ([], c :: r)

/-- A JSON number lexeme: `-? int frac? exp?`. -/
def parseNumber (l : List Char) : Option (List Char × List Char) := do
  let (sgn, l1) :=
    match l with
    | '-' :: r => ((['-'] : List Char), r)
    | _ => (([] : List Char), l)
  let (ip, l2) ← parseIntPart l1
  let (fp, l3) ← parseFracPart l2
  let (ep, l4) ← parseExpPart l3
  some (sgn ++ ip ++ fp ++ ep, l4)

/-- Literal `{` and `}` characters, named so the delimiters stay readable. -/
def lbraceChar : Char := Char.ofNat 123

def rbraceChar : Char := Char.ofNat 125

/-- Parsing mode: a single value, the tail of an array (elements accumulated
in reverse), or the tail of an object. -/
inductive PMode where
  | value
  | elems (acc : List Json)
  | members (acc : List (String × Json))

/-- The recursive-descent core.  Fuel-indexed so the recursion is structural;
`jsonParse` supplies ample fuel. -/
def parseAny : Nat → PMode → List Char → Except String (Json × List Char)
  | 0, _, _ => Except.error "JSON input too deeply nested"
  | Nat.succ fuel, PMode.value, l =>
    match skipWs l with
    | [] => Except.error "Unexpected end of JSON input"
    | c :: rest =>
      if c = '"' then
        match parseStringBody rest with
        | some (cs, r) => Except.ok (Json.str (String.mk cs), r)
        | none => Except.error "Bad string in JSON"
      else if c = '[' then
        match skipWs rest with
        | ']' :: r2 => Except.ok (Json.arr [], r2)
        | r2 => parseAny fuel (PMode.elems []) r2
      else if c = lbraceChar then
        match skipWs rest with
        | [] => Except.error "Unexpected end of JSON input"
        | c2 :: r2 =>
          if c2 = rbraceChar then Except.ok (Json.obj [], r2)
          else parseAny fuel (PMode.members []) (c2 :: r2)
      else if c = 't' then
        match rest with
        | 'r' :: 'u' :: 'e' :: r => Except.ok (Json.bool true, r)
        | _ => Except.error "Unexpected token in JSON"
      else if c = 'f' then
        match rest with
        | 'a' :: 'l' :: 's' :: 'e' :: r => Except.ok (Json.bool false, r)
        | _ => Except.error "Unexpected token in JSON"
      else if c = 'n' then
        match rest with
        | 'u' :: 'l' :: 'l' :: r => Except.ok (Json.null, r)
        | _ => Except.error "Unexpected token in JSON"
      else if c = '-' ∨ c.isDigit then
        match parseNumber (c :: rest) with
        | some (lex, r) => Except.ok (Json.num (String.mk lex), r)
        | none => Except.error "Bad number in JSON"
      else Except.error "Unexpected token in JSON"
  | Nat.succ fuel, PMode.elems acc, l =>
    match parseAny fuel PMode.value l with
    | Except.error msg => Except.error msg
    | Except.ok (v, r) =>
      match skipWs r with
      | [] => Except.error "Unexpected end of JSON input"
      | c :: r2 =>
        if c = ',' then parseAny fuel (PMode.elems (v :: acc)) r2
        else if c = ']' then Except.ok (Json.arr (v :: acc).reverse, r2)
        else Except.error "Expected comma or closing bracket in JSON array"
  | Nat.succ fuel, PMode.members acc, l =>
    match skipWs l with
    | [] => Except.error "Unexpected end of JSON input"
    | c :: rest =>
      if c = '"' then
        match parseStringBody rest with
        | none => Except.error "Bad string in JSON"
        | some (k, r) =>
          match skipWs r with
          | [] => Except.error "Unexpected end of JSON input"
          | c2 :: r2 =>
            if c2 = ':' then
              match parseAny fuel PMode.value r2 with
              | Except.error msg => Except.error msg
              | Except.ok (v, r3) =>
                match skipWs r3 with
                | [] => Except.error "Unexpected end of JSON input"
                | c3 :: r4 =>
                  if c3 = ',' then parseAny fuel (PMode.members ((String.mk k, v) :: acc)) r4
                  else if c3 = rbraceChar then
                    Except.ok (Json.obj ((String.mk k, v) :: acc).reverse, r4)
                  else Except.error "Expected comma or closing brace in JSON object"
            else Except.error "Expected colon in JSON object"
      else Except.error "Expected property name in JSON object"

/-- Model of `JSON.parse`: parse one value, then require only trailing
whitespace. -/
def jsonParse (s : String) : Except String Json :=
  match parseAny (4 * s.data.length + 4) PMode.value s.data with
  | Except.error msg => Except.error msg
  | Except.ok (v, r) =>
    match skipWs r with
    | [] => Except.ok v
    | _ => Except.error "Unexpected non-whitespace character after JSON data"

example : jsonParse "[]" = Except.ok (Json.arr []) := rfl

example : jsonParse " [ [\"q\", \"a\"], [\"q2\", \"a2\"] ] " =
    Except.ok (Json.arr [Json.arr [Json.str "q", Json.str "a"],
      Json.arr [Json.str "q2", Json.str "a2"]]) := rfl

example : jsonParse "not json" = Except.error "Unexpected token in JSON" := rfl

example : jsonParse "[1, true, null, \"x\\n\"]" =
    Except.ok (Json.arr [Json.num "1", Json.bool true, Json.null, Json.str "x\n"]) := rfl

/-! ### The math tokenizer (`parseConvoWithMath`, table.js lines 37-44)

The source splits the field on the regular expression
`\\[([](.*?)\\[)\]]` with flags `s` (dot matches newline) and `g`, relying
on `String.split` interleaving the single capturing group between the
pieces.  A match is: a backslash, an opening delimiter `(` or `[`, a lazily
matched interior (any characters, newlines included), a backslash, and a
closing delimiter `)` or `]`.  The scanner below reproduces that: find the
first backslash-opener, then the first backslash-closer after it (lazy
interior); if either is missing the remainder is one final piece.  The
regex engine advances one position at a time, so a backslash whose
successor is not a delimiter is ordinary text. -/

def isOpenDelim (c : Char) : Bool := c == '(' || c == '['

def isCloseDelim (c : Char) : Bool := c == ')' || c == ']'

/-- First occurrence of a backslash followed by a character accepted by `p`:
returns the text before the backslash, the accepted delimiter character, and
the input after it. -/
def findDelim (p : Char → Bool) : List Char → Option (List Char × Char × List Char)
  | [] => none
  | c :: rest =>
    if c = '\\' then
      match rest with
      | [] => none
      | d :: rest2 =>
        if p d then some ([], d, rest2)
        else
          match findDelim p rest with
          | none => none
          | some (pre, d2, post) => some (c :: pre, d2, post)
    else
      match findDelim p rest with
      | none => none
      | some (pre, d2, post) => some (c :: pre, d2, post)

/-- One split step per unit of fuel.  Each successful match consumes at
least four characters, so `splitMath` supplies the input length as fuel and
never exhausts it (the fuel-out branch returns the same `[l]` as a failed
match, so the function is total either way). -/
def splitMathAux : Nat → List Char → List (List Char)
  | 0, l => [l]
  | Nat.succ fuel, l =>
    match findDelim isOpenDelim l with
    | none => [l]
    | some (pre, _, rest1) =>
      match findDelim isCloseDelim rest1 with
      | none => [l]
      | some (cap, _, rest2) => pre :: cap :: splitMathAux fuel rest2

def splitMath (l : List Char) : List (List Char) := splitMathAux l.length l

/-- The tokenizer entry `parseConvoWithMath` (table.js line 43): `str.split(mathRegex)`. -/
def parseConvoWithMath (str : String) : List String :=
  (splitMath str.data).map String.mk

/-- A string with none of the four delimiter tokens `\(`, `\[`, `\)`, `\]`:
no backslash immediately followed by a delimiter character. -/
def delimFree : List Char → Bool
  | [] => true
  | [_] => true
  | a :: b :: rest =>
    !(a == '\\' && (isOpenDelim b || isCloseDelim b)) && delimFree (b :: rest)

/-- The elements at odd indices: the pieces the builder treats as math. -/
def oddIndexed : List α → List α
  | _ :: b :: rest => b :: oddIndexed rest
  | _ => []

/-- The token view of the split result: the code consumes the pieces
positionally (`i % 2 === 0` is text, odd is math), so the token tagging is
by index parity. -/
inductive Token where
  | text (content : String)
  | math (expression : String)
deriving DecidableEq, Repr

def tokensOf (s : String) : List Token :=
  (parseConvoWithMath s).enum.map fun p =>
    if p.1 % 2 = 0 then Token.text p.2 else Token.math p.2

def fieldMathTokens (s : String) : List String := oddIndexed (parseConvoWithMath s)

example : parseConvoWithMath "What is \\(2+2\\)?" = ["What is ", "2+2", "?"] := rfl
example : parseConvoWithMath "No math" = ["No math"] := rfl
example : parseConvoWithMath "" = [""] := rfl
example : parseConvoWithMath "\\[x\\]" = ["", "x", ""] := rfl
example : parseConvoWithMath "a\\[x\ny\\]b" = ["a", "x\ny", "b"] := rfl

/-! ### The render node builder (table.js lines 75-113) -/

/-- The marker character handed to the math engine (table.js line 32). -/
def MATHJAX_MARKER : String := "$"

/-- One rendered span: an even-indexed piece is plain text; an odd-indexed
piece becomes a math node holding the hidden raw source
(`'\\(' + convo + '\\)'`, table.js line 86) and the marker-wrapped
expression (line 87). -/
inductive RenderNode where
  | plainText (content : String)
  | mathExpression (expression : String) (hiddenRaw : String) (markedRaw : String)
deriving DecidableEq, Repr

/-- The builder `renderAllMathJax` (table.js lines 75-92). -/
def renderAllMathJax (convoAndMathList : List String) : List RenderNode :=
  convoAndMathList.enum.map fun p =>
    if p.1 % 2 = 0 then RenderNode.plainText p.2
    else RenderNode.mathExpression p.2 ("\\(" ++ p.2 ++ "\\)")
      (MATHJAX_MARKER ++ p.2 ++ MATHJAX_MARKER)

/-- A field's rendered component: a MathJax-wrapped node list when the split
found math, a plain div when the field is a truthy (non-empty) string, and
nothing otherwise. -/
inductive FieldComponent where
  | mathJax (nodes : List RenderNode)
  | plain (content : String)
deriving DecidableEq, Repr

/-- The per-field branch of the row mapping (table.js lines 94-113), paired
with the contribution the branch makes to the closure variable `hasMath`
(set to `true` exactly in the `length > 1` branch). -/
def renderField (field : String) : Option FieldComponent × Bool :=
  let toks := parseConvoWithMath field
  if toks.length > 1 then (some (FieldComponent.mathJax (renderAllMathJax toks)), true)
  else if field ≠ "" then (some (FieldComponent.plain field), false)
  else (none, false)

/-! ### The conversation parser (`renderTableValue`, table.js lines 46-137) -/

/-- JavaScript property read `value[i]` for a numeric index: arrays index
their elements, strings index their characters (as one-character strings),
`null` faults, and any other non-object yields `undefined` (`none`).
Objects look the stringified index up among their keys; `JSON.parse` keeps
the last duplicate, hence the reversed search. -/
def jsIndex (j : Json) (i : Nat) : Except String (Option Json)
  := match j with
  | Json.null => Except.error "TypeError: Cannot read properties of null"
  | Json.arr es => Except.ok (es.get? i)
  | Json.str s => Except.ok ((s.data.get? i).map fun c => Json.str (String.mk [c]))
  | Json.obj fs => Except.ok ((fs.reverse.find? fun kv => kv.1 == toString i).map (·.2))
  | _ => Except.ok none

/-- Calling `.split` on a field value: only strings have `split`; an
`undefined` or non-string receiver raises a `TypeError`. -/
def asSplittable : Option Json → Except String String
  | some (Json.str s) => Except.ok s
  | some _ => Except.error "TypeError: split is not a function"
  | none => Except.error "TypeError: Cannot read properties of undefined"

/-- One conversation row: the optional question and answer components. -/
structure Row where
  question : Option FieldComponent
  answer : Option FieldComponent
deriving DecidableEq, Repr

/-- The body of the `conversations.map` callback (table.js lines 64-120):
read positions 0 and 1, split both fields (in that order — the first fault
wins), then build the two components.  The `Bool` is the iteration's
contribution to `hasMath`. -/
def renderRow (conversation : Json) : Except String (Row × Bool) :=
  match jsIndex conversation 0 with
  | Except.error msg => Except.error msg
  | Except.ok q =>
    match jsIndex conversation 1 with
    | Except.error msg => Except.error msg
    | Except.ok a =>
      match asSplittable q with
      | Except.error msg => Except.error msg
      | Except.ok question =>
        match asSplittable a with
        | Except.error msg => Except.error msg
        | Except.ok answer =>
          let qr := renderField question
          let ar := renderField answer
          Except.ok ({ question := qr.1, answer := ar.1 }, qr.2 || ar.2)

/-- The loop `conversations.map` with the shared `hasMath` accumulator: rows in input
order, and the disjunction of the per-row contributions; the first thrown
`TypeError` aborts the whole map. -/
def mapRows : List Json → Except String (List Row × Bool)
  | [] => Except.ok ([], false)
  | c :: cs =>
    match renderRow c with
    | Except.error msg => Except.error msg
    | Except.ok (row, m) =>
      match mapRows cs with
      | Except.error msg => Except.error msg
      | Except.ok (rows, ms) => Except.ok (row :: rows, m || ms)

/-- The rendered result: the red error box for a failed parse, the rows
wrapped in a `MathJaxContext` configured with the marker pair when math was
found, or a plain div of rows. -/
inductive RenderResult where
  | errorBox (msg : String)
  | mathJaxContext (inlineMath : String × String) (rows : List Row)
  | plainDiv (rows : List Row)
deriving DecidableEq, Repr

/-- The renderer `renderTableValue` (table.js lines 46-137).  The `try` block covers only
`JSON.parse`; a parse failure is caught, logged (the second component
collects `console.error` output) and rendered as the error box, while a
`TypeError` from the row mapping — including `.map` on a non-array —
propagates as `Except.error`. -/
def renderTableValue (val : String) : Except String (RenderResult × List String) :=
  match jsonParse val with
  | Except.error msg =>
    let errMsg := "Couldn't parse JSON: " ++ msg
    Except.ok (RenderResult.errorBox errMsg, [errMsg])
  | Except.ok (Json.arr conversations) =>
    match mapRows conversations with
    | Except.error msg => Except.error msg
    | Except.ok (rows, hasMath) =>
      if hasMath then
        Except.ok (RenderResult.mathJaxContext (MATHJAX_MARKER, MATHJAX_MARKER) rows, [])
      else Except.ok (RenderResult.plainDiv rows, [])
  | Except.ok _ => Except.error "TypeError: conversations.map is not a function"

example : renderTableValue "[[\"hello\",\"world\"]]" =
    Except.ok (RenderResult.plainDiv
      [{ question := some (FieldComponent.plain "hello"),
         answer := some (FieldComponent.plain "world") }], []) := rfl

example : renderTableValue "[[\"What is \\\\(2+2\\\\)?\",\"4\"]]" =
    Except.ok (RenderResult.mathJaxContext ("$", "$")
      [{ question := some (FieldComponent.mathJax
           [RenderNode.plainText "What is ",
            RenderNode.mathExpression "2+2" "\\(2+2\\)" "$2+2$",
            RenderNode.plainText "?"]),
         answer := some (FieldComponent.plain "4") }], []) := rfl

example : renderTableValue "[[]]" =
    Except.error "TypeError: Cannot read properties of undefined" := rfl

/-! ### The typeset scheduler (`triggerMathJaxTypeset`, table.js lines 151-178)

The module-scoped handle `typesetPromise` and the callback chain are
modelled as a state machine driven by four events: a call to
`triggerMathJaxTypeset` (which schedules one `setTimeout` callback), the
firing of one scheduled callback, and the settlement — rejection or
fulfilment — of the in-flight typeset promise.  The single-threaded event
loop is captured by the events arriving in one sequence.  On rejection the
source runs the `catch` handler (log the error, `typesetClear()`, null the
handle, call `triggerMathJaxTypeset()` again — one new scheduled callback)
and then the chained `then` handler (null the already-null handle), all
before any further timer can fire. -/

/-- The scheduler's observable state: whether `typesetPromise` is non-null,
how many `setTimeout` callbacks are scheduled but have not fired, and
counters for engine invocations (`window.MathJax.typesetPromise()` calls),
render-cache clears (`typesetClear()` calls) and logged errors. -/
structure SchedState where
  typesetPromise : Bool
  pendingTimers : Nat
  invocations : Nat
  typesetClears : Nat
  errorLogs : Nat
deriving DecidableEq, Repr

/-- Module-load state: `typesetPromise = null`, nothing scheduled. -/
def schedInit : SchedState :=
  { typesetPromise := false, pendingTimers := 0, invocations := 0,
    typesetClears := 0, errorLogs := 0 }

inductive SchedEvent where
  | trigger
  | timerFires
  | settleFail
  | settleOk
deriving DecidableEq, Repr

/-- One event against the scheduler.  `engineReady` is whether
`window.MathJax.typesetPromise` is currently a function.  Events the
environment cannot produce (a timer firing with none scheduled, a promise
settling with no operation in flight) are rejected. -/
def schedStep (engineReady : Bool) (s : SchedState) : SchedEvent → Except String SchedState
  | SchedEvent.trigger => Except.ok { s with pendingTimers := s.pendingTimers + 1 }
  | SchedEvent.timerFires =>
    if s.pendingTimers = 0 then Except.error "timer fired with none scheduled"
    else
      let s1 : SchedState := { s with pendingTimers := s.pendingTimers - 1 }
      if s1.typesetPromise then Except.ok s1
      else if engineReady = false then Except.ok s1
      else Except.ok { s1 with typesetPromise := true, invocations := s1.invocations + 1 }
  | SchedEvent.settleFail =>
    if s.typesetPromise then
      Except.ok { s with typesetPromise := false,
                         pendingTimers := s.pendingTimers + 1,
                         typesetClears := s.typesetClears + 1,
                         errorLogs := s.errorLogs + 1 }
    else Except.error "no typeset operation in flight"
  | SchedEvent.settleOk =>
    if s.typesetPromise then Except.ok { s with typesetPromise := false }
    else Except.error "no typeset operation in flight"

/-- A sequence of events, left to right. -/
def schedRun (engineReady : Bool) : SchedState → List SchedEvent → Except String SchedState
  | s, [] => Except.ok s
  | s, e :: es =>
    match schedStep engineReady s e with
    | Except.error msg => Except.error msg
    | Except.ok s1 => schedRun engineReady s1 es

/-! ### The component wiring (`TableText`, table.js lines 180-187) -/

/-- The props `TableText` hands to `HtxRichText`.  `didMountEvents` is the
scheduler event sequence produced when the host mounts the component. -/
structure TableTextProps where
  isText : Bool
  alwaysInline : Bool
  valueToComponent : String → Except String (RenderResult × List String)
  didMountEvents : List SchedEvent

/-- Modelled from the spec: the host display surface (`view.js`, whose
source is not under `src/`) invokes the `didMountCallback` prop once after
DOM attachment (spec section 6, "a mount-lifecycle hook invoked once after
DOM attachment").  `TableText` (table.js line 184) sets that callback to
`triggerMathJaxTypeset` for every value, so every mount feeds exactly one
`trigger` event to the scheduler, whatever the rendered value was. -/
def mountSchedEvents (_val : String) : List SchedEvent := [SchedEvent.trigger]

/-- The component `TableText` wires `HtxRichText` with `valueToComponent := renderTableValue`
and the unconditional mount callback. -/
def tableTextProps : TableTextProps :=
  { isText := false, alwaysInline := true,
    valueToComponent := renderTableValue,
    didMountEvents := [SchedEvent.trigger] }

example : schedRun true schedInit
    [SchedEvent.trigger, SchedEvent.trigger, SchedEvent.trigger,
     SchedEvent.timerFires, SchedEvent.timerFires, SchedEvent.timerFires] =
    Except.ok { typesetPromise := true, pendingTimers := 0, invocations := 1,
                typesetClears := 0, errorLogs := 0 } := rfl

example : schedRun true schedInit
    [SchedEvent.trigger, SchedEvent.timerFires, SchedEvent.settleFail,
     SchedEvent.timerFires, SchedEvent.settleOk] =
    Except.ok { typesetPromise := false, pendingTimers := 0, invocations := 2,
                typesetClears := 1, errorLogs := 1 } := rfl

/-! ### The historical offset-1 variant (`src/unnamed/part_001`)

The earliest version of `renderTableValue` reads `conversation[1]` and
`conversation[2]` and renders them directly into table cells, with no math
handling; React renders an `undefined` or `null` cell as empty. -/

/-- One `<tr>` of the historical variant: the raw cell values; `none` is an
absent (`undefined`) value, rendered as an empty cell. -/
structure LegacyRow where
  question : Option Json
  answer : Option Json

/-- The map callback of the historical `renderTableValue`
(`src/unnamed/part_001` lines 181-191). -/
def legacyRenderRow (conversation : Json) : Except String LegacyRow :=
  match jsIndex conversation 1 with
  | Except.error msg => Except.error msg
  | Except.ok q =>
    match jsIndex conversation 2 with
    | Except.error msg => Except.error msg
    | Except.ok a => Except.ok { question := q, answer := a }

/-! ### Scheduler lemmas -/

theorem schedRun_append (r : Bool) (es1 es2 : List SchedEvent) (s : SchedState) :
    schedRun r s (es1 ++ es2) =
      match schedRun r s es1 with
      | Except.error msg => Except.error msg
      | Except.ok s1 => schedRun r s1 es2 := by
  induction es1 generalizing s with
  | nil => rfl
  | cons e es ih =>
    simp only [List.cons_append, schedRun]
    cases schedStep r s e with
    | error msg => rfl
    | ok s1 => exact ih s1

theorem schedRun_triggers (r : Bool) (k : Nat) : ∀ (b : Bool) (p i c e : Nat),
    schedRun r ⟨b, p, i, c, e⟩ (List.replicate k SchedEvent.trigger) =
      Except.ok ⟨b, p + k, i, c, e⟩ := by
  induction k with
  | zero => intro b p i c e; rfl
  | succ k ih =>
    intro b p i c e
    rw [List.replicate_succ]
    show schedRun r ⟨b, p + 1, i, c, e⟩ (List.replicate k SchedEvent.trigger) = _
    rw [ih]
    rw [show p + 1 + k = p + (k + 1) by omega]

theorem schedRun_timers_inflight (r : Bool) (k : Nat) : ∀ (p i c e : Nat), k ≤ p →
    schedRun r ⟨true, p, i, c, e⟩ (List.replicate k SchedEvent.timerFires) =
      Except.ok ⟨true, p - k, i, c, e⟩ := by
  induction k with
  | zero => intro p i c e _; rfl
  | succ k ih =>
    intro p i c e hk
    obtain ⟨p1, rfl⟩ : ∃ p1, p = p1 + 1 := ⟨p - 1, by omega⟩
    rw [List.replicate_succ]
    show schedRun r ⟨true, p1, i, c, e⟩ (List.replicate k SchedEvent.timerFires) = _
    rw [ih p1 i c e (by omega)]
    rw [show p1 - k = p1 + 1 - (k + 1) by omega]

/-- C1: within one debounce window (all `K` scheduled callbacks fire before
the stored promise settles, with the engine's entry point callable), firing
the trigger `K ≥ 1` times produces exactly one engine invocation: the first
elapsed timer stores the handle, and every later one finds it non-empty and
no-ops, so at most one typeset operation is ever in flight. -/
theorem scheduler_single_flight_within_window (K : Nat) (hK : 1 ≤ K) :
    schedRun true schedInit
      (List.replicate K SchedEvent.trigger ++ List.replicate K SchedEvent.timerFires) =
      Except.ok { typesetPromise := true, pendingTimers := 0, invocations := 1,
                  typesetClears := 0, errorLogs := 0 } := by
  obtain ⟨k, rfl⟩ : ∃ k, K = k + 1 := ⟨K - 1, by omega⟩
  show schedRun true ⟨false, 0, 0, 0, 0⟩ _ = Except.ok ⟨true, 0, 1, 0, 0⟩
  rw [schedRun_append, schedRun_triggers]
  show schedRun true ⟨false, 0 + (k + 1), 0, 0, 0⟩
    (List.replicate (k + 1) SchedEvent.timerFires) = _
  rw [show (0 + (k + 1)) = k + 1 by omega]
  rw [List.replicate_succ]
  show schedRun true ⟨true, k, 1, 0, 0⟩ (List.replicate k SchedEvent.timerFires) = _
  rw [schedRun_timers_inflight true k k 1 0 0 (Nat.le_refl k)]
  rw [Nat.sub_self]

/-- C1 witness at `K = 3`. -/
theorem scheduler_single_flight_within_window_witness :
    schedRun true schedInit
      (List.replicate 3 SchedEvent.trigger ++ List.replicate 3 SchedEvent.timerFires) =
      Except.ok { typesetPromise := true, pendingTimers := 0, invocations := 1,
                  typesetClears := 0, errorLogs := 0 } :=
  scheduler_single_flight_within_window 3 (by decide)

/-- C2: on a rejection of the in-flight typeset promise the `catch` handler
logs the failure, clears the engine's render cache (`typesetClear`), clears
the handle (back to Idle) and re-enters the trigger path exactly once (one
new scheduled callback) — returning `Except.ok`, so the rejection never
surfaces to the caller; and a failure followed by a successful retry ends
with the handle empty, two engine invocations and one cache clear. -/
theorem scheduler_failure_clears_and_retries_once :
    (∀ (r : Bool) (s : SchedState), s.typesetPromise = true →
        schedStep r s SchedEvent.settleFail =
          Except.ok { s with typesetPromise := false,
                             pendingTimers := s.pendingTimers + 1,
                             typesetClears := s.typesetClears + 1,
                             errorLogs := s.errorLogs + 1 }) ∧
    schedRun true schedInit
      [SchedEvent.trigger, SchedEvent.timerFires, SchedEvent.settleFail,
       SchedEvent.timerFires, SchedEvent.settleOk] =
      Except.ok { typesetPromise := false, pendingTimers := 0, invocations := 2,
                  typesetClears := 1, errorLogs := 1 } := by
  constructor
  · intro r s hs
    simp only [schedStep]
    rw [if_pos]
    exact hs
  · rfl

/-- C2 witness: the failure step applied to the in-flight state reached by
one trigger and one elapsed timer. -/
theorem scheduler_failure_clears_and_retries_once_witness :
    schedStep true { typesetPromise := true, pendingTimers := 0, invocations := 1,
                     typesetClears := 0, errorLogs := 0 } SchedEvent.settleFail =
      Except.ok { typesetPromise := false, pendingTimers := 1, invocations := 1,
                  typesetClears := 1, errorLogs := 1 } :=
  scheduler_failure_clears_and_retries_once.1 true _ rfl

/-! ### Tokenizer lemmas -/

theorem splitMathAux_length_odd (fuel : Nat) : ∀ l : List Char,
    (splitMathAux fuel l).length % 2 = 1 := by
  induction fuel with
  | zero => intro l; rfl
  | succ fuel ih =>
    intro l
    cases h1 : findDelim isOpenDelim l with
    | none => simp [splitMathAux, h1]
    | some t =>
      obtain ⟨pre, d, rest1⟩ := t
      cases h2 : findDelim isCloseDelim rest1 with
      | none => simp [splitMathAux, h1, h2]
      | some t2 =>
        obtain ⟨cap, d2, rest2⟩ := t2
        have hrec := ih rest2
        simp only [splitMathAux, h1, h2, List.length_cons]
        omega

theorem parseConvoWithMath_length_odd (s : String) :
    (parseConvoWithMath s).length % 2 = 1 := by
  simp only [parseConvoWithMath, splitMath, List.length_map]
  exact splitMathAux_length_odd s.data.length s.data

/-- One-step unfolding of `findDelim` on a nonempty input. -/
theorem findDelim_cons_eq (p : Char → Bool) (c : Char) (rest : List Char) :
    findDelim p (c :: rest) =
      if c = '\\' then
        match rest with
        | [] => none
        | d :: rest2 =>
          if p d then some ([], d, rest2)
          else
            match findDelim p rest with
            | none => none
            | some (pre, d2, post) => some (c :: pre, d2, post)
      else
        match findDelim p rest with
        | none => none
        | some (pre, d2, post) => some (c :: pre, d2, post) := rfl

/-- A delimiter-free string has no backslash-opener occurrence. -/
theorem delimFree_no_opener : ∀ l : List Char, delimFree l = true →
    findDelim isOpenDelim l = none
  | [], _ => rfl
  | [c], _ => by
    rw [findDelim_cons_eq]
    by_cases hc : c = '\\'
    · rw [if_pos hc]
    · rw [if_neg hc]
      rfl
  | a :: b :: rest, h => by
    have h0 : (!(a == '\\' && (isOpenDelim b || isCloseDelim b)) &&
        delimFree (b :: rest)) = true := h
    rw [Bool.and_eq_true, Bool.not_eq_true'] at h0
    obtain ⟨hcond, hdf⟩ := h0
    have hrec := delimFree_no_opener (b :: rest) hdf
    rw [findDelim_cons_eq]
    by_cases ha : a = '\\'
    · have hb : isOpenDelim b = false := by
        rw [ha] at hcond
        simp at hcond
        exact hcond.1
      rw [if_pos ha]
      show (if isOpenDelim b = true then some (([] : List Char), b, rest)
        else match findDelim isOpenDelim (b :: rest) with
          | none => none
          | some (pre, d2, post) => some (a :: pre, d2, post)) = none
      rw [hb, hrec]
      simp
    · rw [if_neg ha, hrec]

theorem splitMathAux_delimFree (fuel : Nat) (l : List Char) (h : delimFree l = true) :
    splitMathAux fuel l = [l] := by
  cases fuel with
  | zero => rfl
  | succ fuel => simp [splitMathAux, delimFree_no_opener l h]

theorem string_mk_data (s : String) : String.mk s.data = s := by
  cases s
  rfl

theorem parseConvoWithMath_delimFree (s : String) (h : delimFree s.data = true) :
    parseConvoWithMath s = [s] := by
  simp only [parseConvoWithMath, splitMath, splitMathAux_delimFree s.data.length s.data h,
    List.map_cons, List.map_nil, string_mk_data]

/-- C5: the alternating-mode tokenizer always returns an odd-length
sequence tagged `Text` at even indices and `Math` at odd indices — hence it
begins and ends with a (possibly empty) `Text` token and strictly
alternates; a delimiter-free input yields the single `Text` token equal to
the whole input, and the empty input yields a single empty `Text` token. -/
theorem tokenizer_alternation_invariant :
    (∀ s : String, (tokensOf s).length % 2 = 1) ∧
    (∀ (s : String) (i : Nat) (t : Token), (tokensOf s)[i]? = some t →
        (i % 2 = 0 → ∃ content, t = Token.text content) ∧
        (i % 2 = 1 → ∃ expression, t = Token.math expression)) ∧
    (∀ s : String, ∃ content, (tokensOf s).head? = some (Token.text content)) ∧
    (∀ s : String, ∃ content, (tokensOf s).getLast? = some (Token.text content)) ∧
    (∀ s : String, delimFree s.data = true → tokensOf s = [Token.text s]) ∧
    tokensOf "" = [Token.text ""] := by
  have hodd : ∀ s : String, (tokensOf s).length % 2 = 1 := by
    intro s
    simp only [tokensOf, List.length_map, List.enum_length]
    exact parseConvoWithMath_length_odd s
  have hpar : ∀ (s : String) (i : Nat) (t : Token), (tokensOf s)[i]? = some t →
      (i % 2 = 0 → ∃ content, t = Token.text content) ∧
      (i % 2 = 1 → ∃ expression, t = Token.math expression) := by
    intro s i t h
    simp only [tokensOf, List.getElem?_map, List.getElem?_enum] at h
    cases hp : (parseConvoWithMath s)[i]? with
    | none => rw [hp] at h; simp at h
    | some piece =>
      rw [hp] at h
      simp only [Option.map_some', Option.some_inj] at h
      by_cases hi : i % 2 = 0
      · rw [if_pos hi] at h
        exact ⟨fun _ => ⟨piece, h.symm⟩, fun h1 => by omega⟩
      · rw [if_neg hi] at h
        exact ⟨fun h0 => absurd h0 hi, fun _ => ⟨piece, h.symm⟩⟩
  refine ⟨hodd, hpar, ?_, ?_, ?_, rfl⟩
  · intro s
    cases hp : parseConvoWithMath s with
    | nil =>
      exfalso
      have := parseConvoWithMath_length_odd s
      rw [hp] at this
      simp at this
    | cons p ps =>
      exact ⟨p, by simp [tokensOf, hp, List.enum_cons]⟩
  · intro s
    have h1 := hodd s
    have hn : (tokensOf s).length - 1 < (tokensOf s).length := by omega
    have h2 : (tokensOf s)[(tokensOf s).length - 1]? =
        some ((tokensOf s)[(tokensOf s).length - 1]) := List.getElem?_eq_getElem hn
    obtain ⟨content, hc⟩ := (hpar s _ _ h2).1 (by omega)
    exact ⟨content, by rw [List.getLast?_eq_getElem? (tokensOf s), h2, hc]⟩
  · intro s h
    simp [tokensOf, parseConvoWithMath_delimFree s h]

/-- C5 witness: a delimiter-free input is one whole-text token, and the
spec's worked example has the alternating odd-length shape. -/
theorem tokenizer_alternation_invariant_witness :
    tokensOf "No math" = [Token.text "No math"] :=
  tokenizer_alternation_invariant.2.2.2.2.1 "No math" (by decide)

/-- C7: the split recognizes both historical delimiter pairs (`\( \)` and
`\[ \]`) through the one combined pattern, captures interiors across line
breaks (the regex `s` flag), and splits the spec's example as stated. -/
theorem combined_delimiter_split_examples :
    parseConvoWithMath "What is \\(2+2\\)?" = ["What is ", "2+2", "?"] ∧
    parseConvoWithMath "\\[a\\]" = ["", "a", ""] ∧
    parseConvoWithMath "a\\[x\ny\\]b" = ["a", "x\ny", "b"] ∧
    parseConvoWithMath "p\\(u\nv\\)q" = ["p", "u\nv", "q"] :=
  ⟨rfl, rfl, rfl, rfl⟩

/-! ### Builder theorems -/

/-- C6 counterexample: for the bracket delimiter pair the builder does not
round-trip the original delimiter-wrapped substring.  The whole field
`\[x\]` is matched with interior `x`, but `hiddenRaw` is rebuilt as
`\(x\)` (table.js line 86 always wraps in backslash-parens), which differs
from the original substring `\[x\]`. -/
theorem hiddenRaw_bracket_counterexample :
    renderAllMathJax (parseConvoWithMath "\\[x\\]") =
      [RenderNode.plainText "", RenderNode.mathExpression "x" "\\(x\\)" "$x$",
       RenderNode.plainText ""] ∧
    ("\\(x\\)" : String) ≠ "\\[x\\]" :=
  ⟨rfl, by decide⟩

/-- C6 amended: every Math node's `hiddenRaw` is the paren-wrapped
expression `\(` ++ expression ++ `\)` (and `markedRaw` the marker-wrapped
one); this equals the original delimiter-wrapped substring exactly when the
source delimiters were the paren pair, as in the concrete round trip
below. -/
theorem hiddenRaw_paren_wrap :
    (∀ (toks : List String) (i : Nat) (e hr mr : String),
        (renderAllMathJax toks)[i]? = some (RenderNode.mathExpression e hr mr) →
        hr = "\\(" ++ e ++ "\\)" ∧ mr = MATHJAX_MARKER ++ e ++ MATHJAX_MARKER) ∧
    parseConvoWithMath "ab \\(1+1\\) cd" = ["ab ", "1+1", " cd"] ∧
    renderAllMathJax (parseConvoWithMath "ab \\(1+1\\) cd") =
      [RenderNode.plainText "ab ",
       RenderNode.mathExpression "1+1" "\\(1+1\\)" "$1+1$",
       RenderNode.plainText " cd"] ∧
    ("ab \\(1+1\\) cd" : String) = "ab " ++ "\\(1+1\\)" ++ " cd" := by
  refine ⟨?_, rfl, rfl, by decide⟩
  intro toks i e hr mr h
  simp only [renderAllMathJax, List.getElem?_map, List.getElem?_enum] at h
  cases hp : toks[i]? with
  | none => rw [hp] at h; simp at h
  | some piece =>
    rw [hp] at h
    simp only [Option.map_some', Option.some_inj] at h
    by_cases hi : i % 2 = 0
    · rw [if_pos hi] at h
      simp at h
    · rw [if_neg hi] at h
      obtain ⟨he, hhr, hmr⟩ := RenderNode.mathExpression.inj h
      rw [← hhr, ← hmr, he]
      exact ⟨rfl, rfl⟩

/-- C6 amended witness at the Math token of `["", "x"]`. -/
theorem hiddenRaw_paren_wrap_witness :
    ("\\(x\\)" : String) = "\\(" ++ "x" ++ "\\)" ∧
    ("$x$" : String) = MATHJAX_MARKER ++ "x" ++ MATHJAX_MARKER :=
  hiddenRaw_paren_wrap.1 ["", "x"] 1 "x" "\\(x\\)" "$x$" rfl

/-! ### Conversation parser lemmas -/

/-- A conversation element of the expected schema: an array whose positions
0 and 1 (the question and answer of the current version) hold strings. -/
def IsStringTuple (c : Json) : Prop :=
  ∃ es q a, c = Json.arr es ∧ es.get? 0 = some (Json.str q) ∧
    es.get? 1 = some (Json.str a)

/-- Evaluating `renderRow` on a tuple with string question/answer fields: both reads
and both splits succeed, and the row is the two rendered fields. -/
theorem renderRow_strings (es : List Json) (q a : String)
    (h0 : es.get? 0 = some (Json.str q)) (h1 : es.get? 1 = some (Json.str a)) :
    renderRow (Json.arr es) = Except.ok
      ({ question := (renderField q).1, answer := (renderField a).1 },
       (renderField q).2 || (renderField a).2) := by
  simp only [renderRow, jsIndex, h0, h1]
  rfl

/-- When every element renders, `mapRows` succeeds with one row per element
in input order, each row the rendering of its own element. -/
theorem mapRows_spec : ∀ convs : List Json,
    (∀ c ∈ convs, ∃ out, renderRow c = Except.ok out) →
    ∃ rows m, mapRows convs = Except.ok (rows, m) ∧
      rows.length = convs.length ∧
      ∀ (i : Nat) (hi : i < rows.length) (hi' : i < convs.length),
        ∃ b, renderRow (convs.get ⟨i, hi'⟩) = Except.ok (rows.get ⟨i, hi⟩, b) := by
  intro convs
  induction convs with
  | nil => exact fun _ => ⟨[], false, rfl, rfl, fun i hi => absurd hi (by simp)⟩
  | cons c cs ih =>
    intro h
    obtain ⟨out, hout⟩ := h c (List.mem_cons_self c cs)
    obtain ⟨rows, m, hmap, hlen, hcorr⟩ :=
      ih fun c2 hc2 => h c2 (List.mem_cons_of_mem c hc2)
    refine ⟨out.1 :: rows, out.2 || m, ?_, by simp [hlen], ?_⟩
    · simp only [mapRows, hout, hmap]
    · intro i hi hi'
      cases i with
      | zero => exact ⟨out.2, hout⟩
      | succ i =>
        exact hcorr i (Nat.lt_of_succ_lt_succ hi) (Nat.lt_of_succ_lt_succ hi')

/-- C3: for a raw value whose JSON parse is an array of `N` tuples (with
string question/answer fields), the renderer produces exactly `N` rows, in
the array's order, row `i` being the rendering of tuple `i`: no unit is
dropped, duplicated or reordered. -/
theorem parser_preserves_tuple_count_and_order (val : String) (convs : List Json)
    (hparse : jsonParse val = Except.ok (Json.arr convs))
    (htup : ∀ c ∈ convs, IsStringTuple c) :
    ∃ rows m, mapRows convs = Except.ok (rows, m) ∧
      renderTableValue val = Except.ok
        ((if m then RenderResult.mathJaxContext (MATHJAX_MARKER, MATHJAX_MARKER) rows
          else RenderResult.plainDiv rows), []) ∧
      rows.length = convs.length ∧
      ∀ (i : Nat) (hi : i < rows.length) (hi' : i < convs.length),
        ∃ b, renderRow (convs.get ⟨i, hi'⟩) = Except.ok (rows.get ⟨i, hi⟩, b) := by
  have hok : ∀ c ∈ convs, ∃ out, renderRow c = Except.ok out := by
    intro c hc
    obtain ⟨es, q, a, rfl, h0, h1⟩ := htup c hc
    exact ⟨_, renderRow_strings es q a h0 h1⟩
  obtain ⟨rows, m, hmap, hlen, hcorr⟩ := mapRows_spec convs hok
  refine ⟨rows, m, hmap, ?_, hlen, hcorr⟩
  simp only [renderTableValue, hparse, hmap]
  cases m with
  | false => rfl
  | true => rfl

/-- C3 witness at a two-tuple value. -/
theorem parser_preserves_tuple_count_and_order_witness :
    ∃ rows m,
      mapRows [Json.arr [Json.str "q1", Json.str "a1"],
               Json.arr [Json.str "q2", Json.str "a2"]] = Except.ok (rows, m) ∧
      renderTableValue "[[\"q1\",\"a1\"],[\"q2\",\"a2\"]]" = Except.ok
        ((if m then RenderResult.mathJaxContext (MATHJAX_MARKER, MATHJAX_MARKER) rows
          else RenderResult.plainDiv rows), []) ∧
      rows.length = ([Json.arr [Json.str "q1", Json.str "a1"],
                      Json.arr [Json.str "q2", Json.str "a2"]] : List Json).length ∧
      ∀ (i : Nat) (hi : i < rows.length)
        (hi' : i < ([Json.arr [Json.str "q1", Json.str "a1"],
                     Json.arr [Json.str "q2", Json.str "a2"]] : List Json).length),
        ∃ b, renderRow (([Json.arr [Json.str "q1", Json.str "a1"],
                          Json.arr [Json.str "q2", Json.str "a2"]] : List Json).get ⟨i, hi'⟩) =
          Except.ok (rows.get ⟨i, hi⟩, b) :=
  parser_preserves_tuple_count_and_order "[[\"q1\",\"a1\"],[\"q2\",\"a2\"]]"
    [Json.arr [Json.str "q1", Json.str "a1"], Json.arr [Json.str "q2", Json.str "a2"]]
    rfl
    (by
      intro c hc
      simp only [List.mem_cons, List.not_mem_nil, or_false] at hc
      rcases hc with rfl | rfl
      · exact ⟨_, "q1", "a1", rfl, rfl, rfl⟩
      · exact ⟨_, "q2", "a2", rfl, rfl, rfl⟩)

/-- C4: a raw value that is not valid JSON renders as the explicit error
box carrying the parse error message, and that message is logged; the
result is `Except.ok` — nothing escapes the parser boundary — and the error
box carries no rows, so no partial conversation list is rendered. -/
theorem invalid_json_yields_error_node (s msg : String)
    (h : jsonParse s = Except.error msg) :
    renderTableValue s =
      Except.ok (RenderResult.errorBox ("Couldn't parse JSON: " ++ msg),
        ["Couldn't parse JSON: " ++ msg]) := by
  simp only [renderTableValue, h]

/-- C4 witness at the malformed input `not json`. -/
theorem invalid_json_yields_error_node_witness :
    renderTableValue "not json" =
      Except.ok (RenderResult.errorBox "Couldn't parse JSON: Unexpected token in JSON",
        ["Couldn't parse JSON: Unexpected token in JSON"]) :=
  invalid_json_yields_error_node "not json" "Unexpected token in JSON" rfl

/-! ### Field-offset and field-emission theorems -/

/-- C8 counterexample: a valid JSON array of one tuple that is missing its
answer position does not render with an empty answer: `conversation[1]` is
`undefined`, `parseConvoWithMath(undefined)` calls `.split` on `undefined`,
and the `TypeError` escapes `renderTableValue` — no row is produced at
all. -/
theorem short_tuple_type_fault :
    renderTableValue "[[\"only question\"]]" =
      Except.error "TypeError: Cannot read properties of undefined" := rfl

/-- C8 amended: question and answer are read positionally — the current
version reads positions 0 and 1 and ignores every later position; the
historical offset-1 variant reads positions 1 and 2 and renders a missing
position as an empty cell.  But in the current version a tuple shorter than
required raises a `TypeError` (splitting `undefined`) instead of yielding
empty strings. -/
theorem positional_mapping_amended :
    (∀ (q a : String) (rest : List Json),
        renderRow (Json.arr (Json.str q :: Json.str a :: rest)) =
          renderRow (Json.arr [Json.str q, Json.str a])) ∧
    (∀ q : String, renderRow (Json.arr [Json.str q]) =
        Except.error "TypeError: Cannot read properties of undefined") ∧
    renderRow (Json.arr []) =
      Except.error "TypeError: Cannot read properties of undefined" ∧
    (∀ es : List Json, legacyRenderRow (Json.arr es) =
        Except.ok { question := es.get? 1, answer := es.get? 2 }) :=
  ⟨fun _ _ _ => rfl, fun _ => rfl, rfl, fun _ => rfl⟩

theorem oddIndexed_ne_nil : ∀ l : List α, oddIndexed l ≠ [] ↔ 2 ≤ l.length
  | [] => by simp [oddIndexed]
  | [a] => by simp [oddIndexed]
  | _ :: _ :: rest => by simp [oddIndexed]

/-- The `hasMath` contribution of one field is exactly "the split produced
more than one piece". -/
theorem renderField_snd (field : String) :
    (renderField field).2 = decide ((parseConvoWithMath field).length > 1) := by
  simp only [renderField]
  by_cases h : (parseConvoWithMath field).length > 1
  · rw [if_pos h, decide_eq_true h]
  · rw [if_neg h, decide_eq_false h]
    by_cases h2 : field ≠ ""
    · rw [if_pos h2]
    · rw [if_neg h2]

/-- A field emits no component exactly when its split is a single piece and
the field is the empty string (the only falsy string). -/
theorem renderField_fst_none_iff (field : String) :
    (renderField field).1 = none ↔
      ((parseConvoWithMath field).length ≤ 1 ∧ field = "") := by
  simp only [renderField]
  by_cases h : (parseConvoWithMath field).length > 1
  · rw [if_pos h]
    constructor
    · intro hno; exact absurd hno (by simp)
    · intro hcon; exact absurd hcon.1 (by omega)
  · rw [if_neg h]
    by_cases h2 : field ≠ ""
    · rw [if_pos h2]
      constructor
      · intro hno; exact absurd hno (by simp)
      · intro hcon; exact absurd hcon.2 h2
    · rw [if_neg h2]
      have h3 : field = "" := not_not.mp h2
      exact ⟨fun _ => ⟨by omega, h3⟩, fun _ => rfl⟩

/-- The overall `hasMath` flag is the disjunction of the per-unit
contributions: it is true exactly when some element rendered with a true
contribution. -/
theorem mapRows_or_spec : ∀ (convs : List Json) (rows : List Row) (m : Bool),
    mapRows convs = Except.ok (rows, m) →
    (m = true ↔ ∃ c ∈ convs, ∃ row, renderRow c = Except.ok (row, true)) := by
  intro convs
  induction convs with
  | nil =>
    intro rows m h
    injection h with h1
    injection h1 with hrows hm
    rw [← hm]
    simp
  | cons c cs ih =>
    intro rows m h
    simp only [mapRows] at h
    cases hr : renderRow c with
    | error msg => rw [hr] at h; exact absurd h (by simp)
    | ok out =>
      rw [hr] at h
      cases hm : mapRows cs with
      | error msg => rw [hm] at h; exact absurd h (by simp)
      | ok p =>
        rw [hm] at h
        injection h with h1
        injection h1 with hrows hm2
        rw [← hm2]
        have ihp := ih p.1 p.2 (by rw [hm])
        constructor
        · intro hor
          rcases Bool.or_eq_true_iff.mp hor with h2 | h2
          · exact ⟨c, List.mem_cons_self c cs, out.1, by rw [hr, ← h2]⟩
          · obtain ⟨c2, hc2, row, hrow⟩ := ihp.mp h2
            exact ⟨c2, List.mem_cons_of_mem c hc2, row, hrow⟩
        · intro hex
          obtain ⟨c2, hc2, row, hrow⟩ := hex
          rcases List.mem_cons.mp hc2 with rfl | hc2
          · rw [hr] at hrow
            injection hrow with h2
            have : out.2 = true := by
              rw [show out = (row, true) from h2]
            rw [this, Bool.true_or]
          · rw [ihp.mpr ⟨c2, hc2, row, hrow⟩, Bool.or_true]

/-- C9 counterexample: "the Typeset Scheduler is never invoked when the
overall math flag is false" fails on the code: `TableText` attaches
`triggerMathJaxTypeset` as the mount callback unconditionally (table.js
lines 180-187), so a zero-math value renders as the plain div — no
math-context wrapper — and the mount hook still feeds one trigger to the
scheduler. -/
theorem zero_math_mount_still_triggers_scheduler :
    renderTableValue "[[\"hello\",\"world\"]]" =
      Except.ok (RenderResult.plainDiv
        [{ question := some (FieldComponent.plain "hello"),
           answer := some (FieldComponent.plain "world") }], []) ∧
    mountSchedEvents "[[\"hello\",\"world\"]]" = [SchedEvent.trigger] ∧
    tableTextProps.didMountEvents = [SchedEvent.trigger] :=
  ⟨rfl, rfl, rfl⟩

/-- C9 amended: a unit's `hasMath` contribution is true exactly when its
question or answer field yielded at least one Math token, and the overall
flag is the OR across all units; a false flag renders the rows with no
math-context wrapper and a true flag wraps all rows in the single
`MathJaxContext` configured with the marker character as both inline
delimiters — but the Scheduler trigger fires on mount regardless of the
flag, because the mount callback is attached unconditionally. -/
theorem hasMath_flag_and_wrapper_amended :
    (∀ field : String, (renderField field).2 = true ↔ fieldMathTokens field ≠ []) ∧
    (∀ (es : List Json) (q a : String), es.get? 0 = some (Json.str q) →
        es.get? 1 = some (Json.str a) →
        renderRow (Json.arr es) = Except.ok
          ({ question := (renderField q).1, answer := (renderField a).1 },
           (renderField q).2 || (renderField a).2)) ∧
    (∀ (convs : List Json) (rows : List Row) (m : Bool),
        mapRows convs = Except.ok (rows, m) →
        (m = true ↔ ∃ c ∈ convs, ∃ row, renderRow c = Except.ok (row, true))) ∧
    (∀ (val : String) (convs : List Json) (rows : List Row) (m : Bool),
        jsonParse val = Except.ok (Json.arr convs) →
        mapRows convs = Except.ok (rows, m) →
        renderTableValue val = Except.ok
          ((if m then RenderResult.mathJaxContext (MATHJAX_MARKER, MATHJAX_MARKER) rows
            else RenderResult.plainDiv rows), [])) ∧
    (∀ val : String, mountSchedEvents val = [SchedEvent.trigger]) := by
  refine ⟨?_, renderRow_strings, mapRows_or_spec, ?_, fun _ => rfl⟩
  · intro field
    rw [renderField_snd, fieldMathTokens, oddIndexed_ne_nil]
    simp only [decide_eq_true_eq]
    omega
  · intro val convs rows m hparse hmap
    simp only [renderTableValue, hparse, hmap]
    cases m with
    | false => rfl
    | true => rfl

/-- C9 amended witness: the wrapper case at a one-tuple value whose
question holds paren-delimited math. -/
theorem hasMath_flag_and_wrapper_amended_witness :
    renderTableValue "[[\"hi \\\\(x\\\\)\",\"yo\"]]" = Except.ok
      ((if true then RenderResult.mathJaxContext (MATHJAX_MARKER, MATHJAX_MARKER)
          [⟨some (FieldComponent.mathJax [RenderNode.plainText "hi ",
              RenderNode.mathExpression "x" "\\(x\\)" "$x$", RenderNode.plainText ""]),
            some (FieldComponent.plain "yo")⟩]
        else RenderResult.plainDiv
          [⟨some (FieldComponent.mathJax [RenderNode.plainText "hi ",
              RenderNode.mathExpression "x" "\\(x\\)" "$x$", RenderNode.plainText ""]),
            some (FieldComponent.plain "yo")⟩]), []) :=
  hasMath_flag_and_wrapper_amended.2.2.2.1 "[[\"hi \\\\(x\\\\)\",\"yo\"]]"
    [Json.arr [Json.str "hi \\(x\\)", Json.str "yo"]]
    [⟨some (FieldComponent.mathJax [RenderNode.plainText "hi ",
        RenderNode.mathExpression "x" "\\(x\\)" "$x$", RenderNode.plainText ""]),
      some (FieldComponent.plain "yo")⟩]
    true rfl rfl

/-- C10 counterexample: a unit whose fields are missing entirely (the
empty tuple, a falsy read) does not render a row with the empty fields
omitted — the whole render faults with a `TypeError`, so no output row
exists at all. -/
theorem missing_field_type_fault :
    renderTableValue "[[]]" =
      Except.error "TypeError: Cannot read properties of undefined" := rfl

/-- C10 amended: for string fields, a field with no math (single-piece
split) and the falsy empty-string value emits no component at all — the
field disappears from the row — and that is the only way a component is
omitted; a missing tuple position, by contrast, raises a `TypeError`
instead of disappearing (here: question present but empty, answer
missing). -/
theorem empty_field_emits_no_node :
    (∀ field : String, (renderField field).1 = none ↔
        ((parseConvoWithMath field).length ≤ 1 ∧ field = "")) ∧
    (∀ a : String, renderRow (Json.arr [Json.str "", Json.str a]) =
        Except.ok ({ question := none, answer := (renderField a).1 },
          (renderField a).2)) ∧
    renderTableValue "[[\"\"]]" =
      Except.error "TypeError: Cannot read properties of undefined" := by
  refine ⟨renderField_fst_none_iff, ?_, rfl⟩
  intro a
  rfl

/-- C10 amended witness: the empty question of an otherwise plain row
emits no component. -/
theorem empty_field_emits_no_node_witness :
    (renderField "").1 = none :=
  (empty_field_emits_no_node.1 "").mpr ⟨by decide, rfl⟩

end TableJS
